import Mathlib

/-!
Verification of the jvdcmp decompiler core: a shallow embedding of
`src/disassembler/transform.rs` (descriptor parsing and constant-pool
resolution) and `src/decompiler/passes/stack_to_var.rs` (stack-machine
elimination), with theorems settling the frozen claims about them.

Conventions of the embedding:
* Rust `panic!` / failed `assert!` / `unwrap` on `None` / `unimplemented!` are
  modelled as `Option`/`Except` failure.
* `isize` stack depths become `Int`; `usize`/`u16` indices become `Nat`.
* `HashMap` lookups become functions `Nat → Option _`.
-/

/-- Embeds the Rust enum `Type` (JVM types). `Type` is reserved in Lean, so the
Lean name is `Typ`. -/
inductive Typ where
  | Byte | Char | Double | Float | Int | Long | Short | Boolean | Void
  | Reference (name : String)
  | Array (inner : Typ)
deriving DecidableEq, Repr

/-- Modelled from the spec: the ordering relation carried by comparison jump
conditions ("compare `left` against `right` using the given ordering
relation"); the concrete Rust enum is declared in a file not under `src/`. -/
inductive Comparison where
  | Eq | Ne | Lt | Ge | Gt | Le
deriving DecidableEq, Repr

namespace Disassembler

/-- Embeds `Signature` as used by `descriptor_to_signature` in
`src/disassembler/transform.rs`: positional parameter types plus return type. -/
structure Signature where
  parameters : List Typ
  return_type : Typ
deriving DecidableEq, Repr

/-- Embeds `descriptor_to_type` (`src/disassembler/transform.rs`).  The Rust
function consumes from a char iterator and panics on empty input or an unknown
leading character; panics are modelled by `none`.  In the `L` branch the Rust
loop pushes characters until it sees `;` or the iterator is exhausted, so a
missing `;` simply ends the name at end of input. -/
def descriptor_to_type : List Char → Option (Typ × List Char)
  | [] => none
  | c :: rest =>
    match c with
    | 'B' => some (Typ.Byte, rest)
    | 'C' => some (Typ.Char, rest)
    | 'D' => some (Typ.Double, rest)
    | 'F' => some (Typ.Float, rest)
    | 'I' => some (Typ.Int, rest)
    | 'J' => some (Typ.Long, rest)
    | 'L' =>
      some (Typ.Reference (String.mk (rest.takeWhile (fun ch => ch ≠ ';'))),
        (rest.dropWhile (fun ch => ch ≠ ';')).drop 1)
    | 'S' => some (Typ.Short, rest)
    | 'V' => some (Typ.Void, rest)
    | 'Z' => some (Typ.Boolean, rest)
    | '[' => (descriptor_to_type rest).map (fun tr => (Typ.Array tr.1, tr.2))
    | _ => none

/-- Embeds the parameter loop of `descriptor_to_signature`: peek at the next
character; unless it is `)`, parse one type descriptor; then the following
character must be `)` (finish with the return type) or `,` (continue),
otherwise the Rust code panics.  Fuel makes the recursion structural; the Rust
loop consumes at least one character per iteration, so fuel equal to the input
length is never exhausted on inputs the Rust code terminates on. -/
def signature_params (fuel : Nat) (chars : List Char) (params : List Typ) :
    Option Signature :=
  match fuel with
  | 0 => none
  | fuel + 1 =>
    match chars.head? with
    | none => none
    | some lookahead =>
      let step : Option (List Typ × List Char) :=
        if lookahead ≠ ')' then
          (descriptor_to_type chars).map (fun tr => (params ++ [tr.1], tr.2))
        else
          some (params, chars)
      step.bind (fun pr =>
        match pr.2 with
        | [] => none
        | c :: rest =>
          if c = ')' then
            (descriptor_to_type rest).map
              (fun tr => { parameters := pr.1, return_type := tr.1 })
          else if c = ',' then
            signature_params fuel rest pr.1
          else none)

/-- Embeds `descriptor_to_signature` (`src/disassembler/transform.rs`): a
leading `(` (else panic), then the comma-separated parameter loop, then the
return type. -/
def descriptor_to_signature (descriptor : String) : Option Signature :=
  match descriptor.toList with
  | [] => none
  | c :: rest =>
    if c ≠ '(' then none
    else signature_params (rest.length + 1) rest []

/-- Embeds `ClassRef` (a resolved class name). -/
structure ClassRef where
  name : String
deriving DecidableEq, Repr

/-- Embeds `FieldRef` (resolved field reference; `class_ref` is a
constant-pool index). -/
structure FieldRef where
  class_ref : Nat
  name : String
  typ : Typ
deriving DecidableEq, Repr

/-- Embeds `MethodRef` (resolved method reference). -/
structure MethodRef where
  class_ref : Nat
  name : String
  signature : Signature
deriving DecidableEq, Repr

/-- Embeds `JavaConstant` (literal constants resolved from the pool). -/
inductive JavaConstant where
  | Integer (i : Int)
  | Str (s : String)
deriving DecidableEq, Repr

/-- Embeds `Descriptor`: the payload of a standalone `NameAndType` entry is a
type or a full signature.  The constructors are lowercased because `Type` is
reserved in Lean. -/
inductive Descriptor where
  | signature (s : Signature)
  | typ (t : Typ)
deriving DecidableEq, Repr

/-- Embeds `NameRef` (resolved standalone `NameAndType` entry). -/
structure NameRef where
  name : String
  typ : Descriptor
deriving DecidableEq, Repr

/-- Embeds `ConstantInfo`: the tagged kinds of raw constant-pool entries that
`process_constant_pool` dispatches on. -/
inductive ConstantInfo where
  | Utf8 (s : String)
  | Integer (i : Int)
  | Class (name_index : Nat)
  | Str (string_index : Nat)
  | FieldRef (class_index : Nat) (name_index : Nat)
  | MethodRef (class_index : Nat) (name_index : Nat)
  | NameAndType (name_index : Nat) (descriptor_index : Nat)
deriving DecidableEq, Repr

/-- Embeds `ConstantPool`: a flat list of entries addressed 1-based. -/
structure ConstantPool where
  constants : List ConstantInfo
deriving DecidableEq, Repr

/-- Embeds `ConstantPool::lookup`: 1-based indexing into the entry list;
an out-of-range index is a panic, modelled as `none`. -/
def ConstantPool.lookup (cp : ConstantPool) (index : Nat) : Option ConstantInfo :=
  if index = 0 then none else cp.constants.get? (index - 1)

/-- Embeds `ConstantPool::lookup_string`: look up an index that must hold a
`Utf8` entry; anything else is a panic, modelled as `none`. -/
def ConstantPool.lookup_string (cp : ConstantPool) (index : Nat) : Option String :=
  (cp.lookup index).bind (fun c =>
    match c with
    | ConstantInfo.Utf8 s => some s
    | _ => none)

/-- The symbol tables of `CompilationUnit` that `process_constant_pool`
populates; `HashMap::insert` is modelled by consing onto an association list. -/
structure UnitTables where
  java_constants : List (Nat × JavaConstant)
  string_constants : List (Nat × String)
  class_refs : List (Nat × ClassRef)
  field_refs : List (Nat × FieldRef)
  method_refs : List (Nat × MethodRef)
  name_refs : List (Nat × NameRef)
deriving DecidableEq, Repr

/-- The empty symbol tables the `CompilationUnit` starts with. -/
def UnitTables.empty : UnitTables :=
  { java_constants := [], string_constants := [], class_refs := [],
    field_refs := [], method_refs := [], name_refs := [] }

/-- Embeds the per-entry body of the `process_constant_pool` loop
(`src/disassembler/transform.rs`): dispatch on the entry kind at 1-based index
`index`, resolving lookups against the whole pool; every Rust panic (wrong-kind
lookup, failed descriptor parse) is `none`.  For a `FieldRef`/`MethodRef`
entry, the name-and-type index must resolve to a `NameAndType` entry, else the
Rust code panics. -/
def process_entry (cp : ConstantPool) (u : UnitTables) (index : Nat)
    (constant : ConstantInfo) : Option UnitTables :=
  match constant with
  | ConstantInfo.Utf8 s =>
    some { u with string_constants := (index, s) :: u.string_constants }
  | ConstantInfo.Integer i =>
    some { u with java_constants := (index, JavaConstant.Integer i) :: u.java_constants }
  | ConstantInfo.Class name_index =>
    (cp.lookup_string name_index).map (fun name =>
      { u with class_refs := (index, ClassRef.mk name) :: u.class_refs })
  | ConstantInfo.Str string_index =>
    (cp.lookup_string string_index).map (fun s =>
      { u with java_constants := (index, JavaConstant.Str s) :: u.java_constants })
  | ConstantInfo.FieldRef class_index name_index =>
    (cp.lookup name_index).bind (fun c =>
      match c with
      | ConstantInfo.NameAndType ni di =>
        (cp.lookup_string ni).bind (fun name =>
        (cp.lookup_string di).bind (fun descriptor =>
        (descriptor_to_type descriptor.toList).map (fun tr =>
          { u with field_refs :=
              (index, FieldRef.mk class_index name tr.1) :: u.field_refs })))
      | _ => none)
  | ConstantInfo.MethodRef class_index name_index =>
    (cp.lookup name_index).bind (fun c =>
      match c with
      | ConstantInfo.NameAndType ni di =>
        (cp.lookup_string ni).bind (fun name =>
        (cp.lookup_string di).bind (fun descriptor =>
        (descriptor_to_signature descriptor).map (fun sig =>
          { u with method_refs :=
              (index, MethodRef.mk class_index name sig) :: u.method_refs })))
      | _ => none)
  | ConstantInfo.NameAndType name_index descriptor_index =>
    (cp.lookup_string name_index).bind (fun name =>
    (cp.lookup_string descriptor_index).bind (fun descriptor_string =>
      let d : Option Descriptor :=
        if descriptor_string.toList.head? = some '(' then
          (descriptor_to_signature descriptor_string).map Descriptor.signature
        else
          (descriptor_to_type descriptor_string.toList).map (fun tr => Descriptor.typ tr.1)
      d.map (fun d =>
        { u with name_refs := (index, NameRef.mk name d) :: u.name_refs })))

/-- The fold of `process_constant_pool` over a suffix of the entry list,
with `index` the 1-based index of the suffix head. -/
def process_from (cp : ConstantPool) (u : UnitTables) (index : Nat) :
    List ConstantInfo → Option UnitTables
  | [] => some u
  | c :: cs =>
    (process_entry cp u index c).bind (fun u' => process_from cp u' (index + 1) cs)

/-- Embeds `process_constant_pool`: enumerate the entries 1-based and process
each in order, starting from empty tables. -/
def process_constant_pool (cp : ConstantPool) : Option UnitTables :=
  process_from cp UnitTables.empty 1 cp.constants

end Disassembler

namespace Decompiler

/-- Embeds the instruction-level enum `UnaryOp` (`disassembler::instructions`,
declared outside `src/`; its variants are those matched by `convert_un_op`). -/
inductive UnaryOp where
  | Neg
deriving DecidableEq, Repr

/-- Embeds the instruction-level enum `BinaryOp` (variants matched by
`convert_bin_op`). -/
inductive BinaryOp where
  | Add | Sub | Mul | Div | Rem | Shl | Shr | Ushr | And | Or | Xor
deriving DecidableEq, Repr

/-- Embeds the expression-level enum `UnOp` (`decompiler::types`). -/
inductive UnOp where
  | Neg
deriving DecidableEq, Repr

/-- Embeds the expression-level enum `BinOp` (`decompiler::types`); targets of
`convert_bin_op`, plus the comparison operator built by `cond_to_expr`. -/
inductive BinOp where
  | Add | Sub | Mul | Div | Rem | Shl | Shr | Ushr | BitAnd | BitOr | BitXor
  | Cmp (ord : Comparison)
deriving DecidableEq, Repr

/-- Embeds `convert_un_op` (`src/decompiler/passes/stack_to_var.rs`). -/
def convert_un_op : UnaryOp → UnOp
  | UnaryOp.Neg => UnOp.Neg

/-- Embeds `convert_bin_op` (`src/decompiler/passes/stack_to_var.rs`). -/
def convert_bin_op : BinaryOp → BinOp
  | BinaryOp.Add => BinOp.Add
  | BinaryOp.Sub => BinOp.Sub
  | BinaryOp.Mul => BinOp.Mul
  | BinaryOp.Div => BinOp.Div
  | BinaryOp.Rem => BinOp.Rem
  | BinaryOp.Shl => BinOp.Shl
  | BinaryOp.Shr => BinOp.Shr
  | BinaryOp.Ushr => BinOp.Ushr
  | BinaryOp.And => BinOp.BitAnd
  | BinaryOp.Or => BinOp.BitOr
  | BinaryOp.Xor => BinOp.BitXor

/-- Embeds `Literal` (`decompiler::types`): the literal kinds observed in
`stack_to_var.rs` (integers) plus the string kind the metadata literal table
can hold. -/
inductive Literal where
  | Integer (i : Int)
  | Str (s : String)
deriving DecidableEq, Repr

/-- Embeds `Signature` from `decompiler::types` (declared outside `src/`):
parameters carry a name (rewritten by `handle_parameters` via `parameter.0`)
and a type; `stack_to_var.rs` reads `parameters.len()` and `return_type`. -/
structure Sig where
  parameters : List (String × Typ)
  return_type : Typ
deriving DecidableEq, Repr

/-- Embeds the decompiler-side `MethodRef` (as stored in
`Metadata.method_refs` and read by the `Invoke` translation). -/
structure MethodRef where
  class_ref : Nat
  name : String
  signature : Sig
deriving DecidableEq, Repr

/-- Embeds `Metadata` (declared outside `src/`): the lookup tables
`stack_to_var.rs` indexes with `metadata.literals[..]`, `metadata.class_refs[..]`,
`metadata.field_refs[..]`, `metadata.method_refs[..]`.  A `HashMap` indexing
panic (missing key) is modelled by the function returning `none`. -/
structure Metadata where
  literals : Nat → Option Literal
  class_refs : Nat → Option Disassembler.ClassRef
  field_refs : Nat → Option Disassembler.FieldRef
  method_refs : Nat → Option MethodRef

/-- Embeds `InvokeKind` (the variants matched in the `Invoke` translation). -/
inductive InvokeKind where
  | Virtual | Special | Static | Interface
deriving DecidableEq, Repr

/-- Embeds `LValue` (`disassembler::instructions`): assignment targets, as
matched by `make_stack_vars_lvalue`. -/
inductive LValue where
  | Local (index : Nat)
  | Stack (index : Int)
  | StaticField (field_ref : Nat)
  | InstanceField (object_stack_index : Int) (field_ref : Nat)
deriving DecidableEq, Repr

/-- Embeds `RValue`: loadable values, as matched by `make_stack_vars_rvalue`. -/
inductive RValue where
  | Constant (l : Literal)
  | ConstantRef (const_ref : Nat)
  | LValue (lv : LValue)
deriving DecidableEq, Repr

/-- Embeds `Arithm`: the arithmetic instruction payloads. -/
inductive Arithm where
  | UnaryOp (op : UnaryOp)
  | BinaryOp (op : BinaryOp)
  | IncreaseLocal (local_index : Nat) (increase : Int)
deriving DecidableEq, Repr

/-- Embeds `Instruction` (`disassembler::instructions`): the variants matched
by `StackLayout::execute`.  Payloads of the variants the pass leaves
`unimplemented!`/`unreachable!` (`TypeConv`, `ObjManip`, `StackManage`,
`Jump`, `Synchronized`) are dropped since execution never inspects them, and
`Return`'s payload is reduced to `Option Unit` because only its presence is
inspected (`value.map(|_| ...)`). -/
inductive Instruction where
  | Nop
  | Load (rv : RValue)
  | Store (lv : LValue)
  | Arithm (a : Arithm)
  | TypeConv
  | ObjManip
  | StackManage
  | Jump
  | Invoke (method_index : Nat) (kind : InvokeKind)
  | Throw
  | Return (value : Option Unit)
  | Synchronized
deriving DecidableEq, Repr

/-- Embeds `JumpCondition`: the condition shapes matched by `cond_to_expr`. -/
inductive JumpCondition where
  | CmpZero (ord : Comparison)
  | Cmp (ord : Comparison)
  | CmpRef (ord : Comparison)
deriving DecidableEq, Repr

mutual
/-- Embeds `Assignable` (`decompiler::types`): a variable (name plus the
numeric second field the source always passes as `0`) or a field access. -/
inductive Assignable where
  | Variable (name : String) (version : Nat)
  | Field (this : Option Expr) (cls : Disassembler.ClassRef)
      (field : Disassembler.FieldRef)

/-- Embeds `Expr` (`decompiler::types`): the expression forms constructed by
`stack_to_var.rs`. -/
inductive Expr where
  | Assign (to_ : Assignable) (op : Option BinOp) (from_ : Expr)
  | UnaryOp (op : UnOp) (e : Expr)
  | BinaryOp (op : BinOp) (left : Expr) (right : Expr)
  | Literal (l : Literal)
  | Assignable (a : Assignable)
  | Invoke (this : Option Expr) (method : MethodRef)
      (cls : Disassembler.ClassRef) (args : List Expr)
  | This
end

/-- Embeds `Statement` (`decompiler::types`): the statement forms emitted by
the pass. -/
inductive Statement where
  | Expr (e : Expr)
  | Return (v : Option Expr)

/-- Embeds the free function `stack` (`stack_to_var.rs`): the name of the
stack slot at depth `i`. -/
def stack (i : Int) : String := "stack_" ++ toString i

/-- Embeds the free function `local` (`stack_to_var.rs`); `local` is reserved
in Lean, hence the name `localVar`. -/
def localVar (i : Nat) : String := "local_" ++ toString i

/-- Embeds the helper `stmt_expr` from `decompiler::types` (outside `src/`):
wraps an expression as an expression statement, as `handle_parameters` does
explicitly with `Statement::Expr`. -/
def stmt_expr (e : Expr) : Statement := Statement.Expr e

/-- Embeds the helper `mk_variable` from `decompiler::types` (outside `src/`):
a variable use as an expression; `stack_to_var.rs` interchangeably wraps
assignables with `Expr::Assignable(Box::new(..))`, and every variable it
builds is `Assignable::Variable(name, 0)`. -/
def mk_variable (name : String) : Expr :=
  Expr.Assignable (Assignable.Variable name 0)

/-- Embeds `StackLayout` (`stack_to_var.rs`): a single `isize` depth counter. -/
def StackLayout := Int

/-- Embeds `StackLayout::new`. -/
def StackLayout.new : Int := 0

/-- Embeds `StackLayout::get`: the slot `i` below the current depth. -/
def StackLayout.get (s : Int) (i : Int) : Int := s - i

/-- Embeds `StackLayout::push`: increment the counter, returning the claimed
slot (the old counter) and the new counter. -/
def StackLayout.push (s : Int) : Int × Int := (s, s + 1)

/-- Embeds `StackLayout::pop`: decrement the counter and assert it is still
non-negative, returning the freed slot, which equals the new counter; the
failed assertion (a Rust panic) is modelled by `none`. -/
def StackLayout.pop (s : Int) : Option Int :=
  if 0 ≤ s - 1 then some (s - 1) else none

/-- Embeds `StackLayout::make_stack_vars_lvalue`: resolve an assignment
target, returning it together with the depth counter after removing the stack
slots the target itself references (`self.0 -= remove`, applied without an
assertion).  Metadata indexing panics are `none`. -/
def make_stack_vars_lvalue (lv : LValue) (metadata : Metadata) (s : Int) :
    Option (Assignable × Int) :=
  match lv with
  | LValue.Local index => some (Assignable.Variable (localVar index) 0, s)
  | LValue.Stack index =>
    some (Assignable.Variable (stack (StackLayout.get s index)) 0, s - 1)
  | LValue.StaticField field_ref =>
    (metadata.field_refs field_ref).bind (fun field =>
    (metadata.class_refs field.class_ref).map (fun cls =>
      (Assignable.Field none cls field, s)))
  | LValue.InstanceField object_stack_index field_ref =>
    (metadata.field_refs field_ref).bind (fun field =>
    (metadata.class_refs field.class_ref).map (fun cls =>
      (Assignable.Field (some (mk_variable (stack (StackLayout.get s object_stack_index))))
        cls field, s - 1)))

/-- Embeds `StackLayout::make_stack_vars_rvalue`: a literal, a literal-pool
reference, or an lvalue read. -/
def make_stack_vars_rvalue (rv : RValue) (metadata : Metadata) (s : Int) :
    Option (Expr × Int) :=
  match rv with
  | RValue.Constant lit => some (Expr.Literal lit, s)
  | RValue.ConstantRef const_ref =>
    (metadata.literals const_ref).map (fun l => (Expr.Literal l, s))
  | RValue.LValue lv =>
    (make_stack_vars_lvalue lv metadata s).map
      (fun ar => (Expr.Assignable ar.1, ar.2))

/-- Embeds `StackLayout::execute` (`src/decompiler/passes/stack_to_var.rs`):
translate one instruction at depth `s`, returning the emitted statements and
the new depth.  `unimplemented!`/`unreachable!` arms and every panic are
modelled by `none`. -/
def execute (instruction : Instruction) (metadata : Metadata) (s : Int) :
    Option (List Statement × Int) :=
  match instruction with
  | Instruction.Nop => some ([], s)
  | Instruction.Load rv =>
    (make_stack_vars_rvalue rv metadata s).map (fun er =>
      let top := (StackLayout.push er.2).1
      ([stmt_expr (Expr.Assign (Assignable.Variable (stack top) 0) none er.1)],
        (StackLayout.push er.2).2))
  | Instruction.Store lv =>
    (make_stack_vars_lvalue lv metadata s).bind (fun ar =>
    (StackLayout.pop ar.2).map (fun top =>
      ([stmt_expr (Expr.Assign ar.1 none (mk_variable (stack top)))], top)))
  | Instruction.Arithm a =>
    match a with
    | Arithm.UnaryOp op =>
      (StackLayout.pop s).map (fun v =>
        let res := (StackLayout.push v).1
        ([stmt_expr (Expr.Assign (Assignable.Variable (stack res) 0) none
          (Expr.UnaryOp (convert_un_op op) (mk_variable (stack v))))],
          (StackLayout.push v).2))
    | Arithm.BinaryOp op =>
      (StackLayout.pop s).bind (fun w =>
      (StackLayout.pop w).map (fun v =>
        let res := (StackLayout.push v).1
        ([stmt_expr (Expr.Assign (Assignable.Variable (stack res) 0) none
          (Expr.BinaryOp (convert_bin_op op)
            (mk_variable (stack v)) (mk_variable (stack w))))],
          (StackLayout.push v).2)))
    | Arithm.IncreaseLocal local_index increase =>
      some ([stmt_expr (Expr.Assign (Assignable.Variable (localVar local_index) 0) none
        (Expr.BinaryOp BinOp.Add
          (Expr.Assignable (Assignable.Variable (localVar local_index) 0))
          (Expr.Literal (Literal.Integer increase))))], s)
  | Instruction.TypeConv => none
  | Instruction.ObjManip => none
  | Instruction.StackManage => none
  | Instruction.Jump => none
  | Instruction.Invoke method_index kind =>
    (metadata.method_refs method_index).bind (fun method_ref =>
    (metadata.class_refs method_ref.class_ref).bind (fun class_ref =>
      let args_count : Int := method_ref.signature.parameters.length
      let args : List Expr := (List.range method_ref.signature.parameters.length).map
        (fun j => mk_variable (stack (s - args_count + j)))
      let s1 : Int := s - args_count
      let recv : Option (Option Expr × Int) :=
        match kind with
        | InvokeKind.Special =>
          (StackLayout.pop s1).map (fun top => (some (mk_variable (stack top)), top))
        | InvokeKind.Virtual =>
          (StackLayout.pop s1).map (fun top => (some (mk_variable (stack top)), top))
        | _ => some (none, s1)
      recv.map (fun ts =>
        let method_call := Expr.Invoke ts.1 method_ref class_ref args
        if method_ref.signature.return_type = Typ.Void then
          ([stmt_expr method_call], ts.2)
        else
          let result := (StackLayout.push ts.2).1
          ([stmt_expr (Expr.Assign (Assignable.Variable (stack result) 0) none
            method_call)], (StackLayout.push ts.2).2))))
  | Instruction.Throw => none
  | Instruction.Return value =>
    match value with
    | none => some ([Statement.Return none], s)
    | some _ =>
      (StackLayout.pop s).map (fun top =>
        ([Statement.Return (some (mk_variable (stack top)))], top))
  | Instruction.Synchronized => none

/-- Embeds `StackLayout::cond_to_expr`: translate a jump condition at depth
`s` into a boolean expression, consuming its operands. -/
def cond_to_expr (cond : JumpCondition) (s : Int) : Option (Expr × Int) :=
  match cond with
  | JumpCondition.CmpZero ord =>
    (StackLayout.pop s).map (fun v =>
      (Expr.BinaryOp (BinOp.Cmp ord) (mk_variable (stack v))
        (Expr.Literal (Literal.Integer 0)), v))
  | JumpCondition.Cmp ord =>
    (StackLayout.pop s).bind (fun w =>
    (StackLayout.pop w).map (fun v =>
      (Expr.BinaryOp (BinOp.Cmp ord) (mk_variable (stack v))
        (mk_variable (stack w)), v)))
  | JumpCondition.CmpRef ord =>
    (StackLayout.pop s).bind (fun w =>
    (StackLayout.pop w).map (fun v =>
      (Expr.BinaryOp (BinOp.Cmp ord) (mk_variable (stack v))
        (mk_variable (stack w)), v)))

/-- Embeds `BasicBlock` (`decompiler::cfg`, outside `src/`; shape from usage):
a statement list and an optional terminator condition. -/
structure BasicBlock (S : Type) (T : Type) where
  stmts : List S
  terminator : Option T

/-- Embeds `BasicBlock::default()`: empty statements, no terminator. -/
def BasicBlock.default {S T : Type} : BasicBlock S T :=
  { stmts := [], terminator := none }

/-- Embeds `Cfg` (`decompiler::cfg`, outside `src/`; shape from usage): a
petgraph directed graph of basic blocks plus entry and exit node indices.
Nodes are the positions of `blocks`; edges carry an opaque weight (the
transformation copies weights unchanged via `|_, e| *e`), modelled as `Int`. -/
structure Cfg (S : Type) (T : Type) where
  blocks : List (BasicBlock S T)
  edges : List (Nat × Nat × Int)
  entry_point : Nat
  exit_point : Nat

/-- The outgoing neighbors of node `v`: targets of edges with source `v`, in
edge-list order (petgraph fixes a different but equally arbitrary order;
no claim depends on it). -/
def successors (edges : List (Nat × Nat × Int)) (v : Nat) : List Nat :=
  edges.filterMap (fun e => if e.1 = v then some e.2.1 else none)

/-- Failures of `transform` (all Rust panics): a stack-depth mismatch at the
named successor node (the `assert_eq!` at the successor update), a panic
inside instruction or condition translation, the `unwrap` of a missing entry
depth, the out-of-bounds write seeding the entry depth of an empty graph, or
exhausted fuel (never reached: the walk pops one stack entry per step and
total pushes are bounded by the edge count plus one). -/
inductive TransformError where
  | mismatch (expected : Int) (node : Nat) (found : Int)
  | instrPanic
  | missingEntryDepth
  | indexOutOfBounds
  | outOfFuel
deriving DecidableEq, Repr

/-- Embeds the successor loop of `transform` (`stack_to_var.rs` lines
286-301): for each successor `w` of the processed node, if its entry depth is
unset, set it to the processed node's exit depth `exit`; otherwise
`assert_eq!` that it equals `exit`, panicking with a message naming `w` and
both depths on mismatch. -/
def processSuccs (exit : Int) (succs : List Nat) (stackAt : List (Option Int)) :
    Except TransformError (List (Option Int)) :=
  match succs with
  | [] => Except.ok stackAt
  | w :: ws =>
    match stackAt.getD w none with
    | some found =>
      if exit = found then processSuccs exit ws stackAt
      else Except.error (TransformError.mismatch exit w found)
    | none => processSuccs exit ws (stackAt.set w (some exit))

/-- The instruction loop of a block body: execute each instruction in order,
appending the emitted statements. -/
def execInsts (metadata : Metadata) : List Instruction → Int →
    Option (List Statement × Int)
  | [], s => some ([], s)
  | inst :: rest, s =>
    (execute inst metadata s).bind (fun ps =>
    (execInsts metadata rest ps.2).map (fun qs => (ps.1 ++ qs.1, qs.2)))

/-- The terminator translation of a block: `bb.terminator.map(|t| ...)`,
threading the depth through `cond_to_expr`. -/
def execTerminator (term : Option JumpCondition) (s : Int) :
    Option (Option Expr × Int) :=
  match term with
  | none => some (none, s)
  | some t => (cond_to_expr t s).map (fun es => (some es.1, es.2))

/-- Embeds the `while let Some(v) = dfs.next(&cfg.graph)` loop of `transform`
together with petgraph's `Dfs`: pop a node from the DFS stack; if it is
already discovered, skip it; otherwise mark it discovered, push its
not-yet-discovered successors, translate its block starting from its recorded
entry depth, store the new block, and run the successor depth check.  The
accumulator `visited` records the processed nodes in reverse order and is
returned (reversed) alongside the final entry-depth array and the new blocks;
fuel makes the recursion structural. -/
def walk (metadata : Metadata) (edges : List (Nat × Nat × Int))
    (blocks : List (BasicBlock Instruction JumpCondition)) :
    Nat → List Nat → List Nat → List (Option Int) →
    List (BasicBlock Statement Expr) → List Nat →
    Except TransformError (List Nat × List (Option Int) × List (BasicBlock Statement Expr))
  | 0, _, _, _, _, _ => Except.error TransformError.outOfFuel
  | _ + 1, [], _, stackAt, newBbs, visited =>
    Except.ok (visited.reverse, stackAt, newBbs)
  | fuel + 1, v :: rest, discovered, stackAt, newBbs, visited =>
    if v ∈ discovered then
      walk metadata edges blocks fuel rest discovered stackAt newBbs visited
    else
      let discovered' := v :: discovered
      let toPush := (successors edges v).filter (fun w => w ∉ discovered')
      match stackAt.getD v none with
      | none => Except.error TransformError.missingEntryDepth
      | some s0 =>
        match blocks.get? v with
        | none => Except.error TransformError.indexOutOfBounds
        | some bb =>
          match execInsts metadata bb.stmts s0 with
          | none => Except.error TransformError.instrPanic
          | some body =>
            match execTerminator bb.terminator body.2 with
            | none => Except.error TransformError.instrPanic
            | some termRes =>
              let newBb : BasicBlock Statement Expr :=
                { stmts := body.1, terminator := termRes.1 }
              match processSuccs termRes.2 (successors edges v) stackAt with
              | Except.error e => Except.error e
              | Except.ok stackAt' =>
                walk metadata edges blocks fuel (toPush ++ rest) discovered'
                  stackAt' (newBbs.set v newBb) (v :: visited)

/-- Embeds `transform` (`stack_to_var.rs`) with its walk state exposed: seed
node index 0 (not `entry_point`) with depth 0 — `stack_at_bb[0] =
Some(StackLayout::new())` panics on an empty graph, modelled by the length
guard — and run the DFS from `NodeIndex::new(0)`, returning the visit order,
the final entry-depth array, and the new blocks. -/
def transformFull (cfg : Cfg Instruction JumpCondition) (metadata : Metadata) :
    Except TransformError (List Nat × List (Option Int) × List (BasicBlock Statement Expr)) :=
  if cfg.blocks.length = 0 then Except.error TransformError.indexOutOfBounds
  else
    walk metadata cfg.edges cfg.blocks (cfg.blocks.length + cfg.edges.length + 1)
      [0] [] ((List.replicate cfg.blocks.length (none : Option Int)).set 0 (some StackLayout.new))
      (List.replicate cfg.blocks.length BasicBlock.default) []

/-- Embeds `transform`: the graph rebuilt by `cfg.graph.map` keeps every node
and every edge weight and only replaces node weights with the translated
blocks (unvisited nodes keep the `BasicBlock::default()` placeholder);
`entry_point` and `exit_point` are copied. -/
def transform (cfg : Cfg Instruction JumpCondition) (metadata : Metadata) :
    Except TransformError (Cfg Statement Expr) :=
  (transformFull cfg metadata).map (fun r =>
    { blocks := r.2.2, edges := cfg.edges,
      entry_point := cfg.entry_point, exit_point := cfg.exit_point })

/-- Embeds `Modifier` (`decompiler::types`, outside `src/`): the modifier
vocabulary produced by the flag mappings in `src/disassembler/transform.rs`. -/
inductive Modifier where
  | Public | Protected | Private | Static | Abstract | Final
  | Synchronized | Native | Strictfp
deriving DecidableEq, Repr

/-- Embeds `Method` (`decompiler::types`, outside `src/`; fields from usage in
`handle_parameters`): modifiers, name, signature and an optional body. -/
structure Method (C : Type) where
  modifiers : List Modifier
  name : String
  signature : Sig
  code : Option C

/-- Embeds `handle_parameters` (`src/decompiler/passes/stack_to_var.rs`): if
the method is not static, synthesize the assignment `local_0 := this` and
count slot 0 for the receiver; rename each formal parameter to the name of its
local slot; then, if the method has a body, `Vec::append` pushes the
synthesized assignments onto the END of the entry block's statement list.
The `unwrap` of an out-of-range `entry_point` is modelled by `none`. -/
def handle_parameters (method : Method (Cfg Statement Expr)) :
    Option (Method (Cfg Statement Expr)) :=
  let isStatic := Modifier.Static ∈ method.modifiers
  let assignments : List Statement :=
    if isStatic then []
    else [Statement.Expr (Expr.Assign (Assignable.Variable (localVar 0) 0) none Expr.This)]
  let start : Nat := if isStatic then 0 else 1
  let sig' : Sig :=
    { method.signature with
      parameters := method.signature.parameters.enum.map
        (fun ip => (localVar (start + ip.1), ip.2.2)) }
  match method.code with
  | none => some { method with signature := sig' }
  | some cfg =>
    match cfg.blocks.get? cfg.entry_point with
    | none => none
    | some bb =>
      some { method with
        signature := sig',
        code := some { cfg with
          blocks := cfg.blocks.set cfg.entry_point
            { bb with stmts := bb.stmts ++ assignments } } }

end Decompiler

namespace Decompiler

/-- Stack slots consumed by resolving an lvalue (the `remove` counter of
`make_stack_vars_lvalue`). -/
def lvalue_remove : LValue → Nat
  | LValue.Local _ => 0
  | LValue.Stack _ => 1
  | LValue.StaticField _ => 0
  | LValue.InstanceField _ _ => 1

/-- Whether the metadata lookups an lvalue needs all succeed. -/
def lvalue_resolvable (metadata : Metadata) : LValue → Bool
  | LValue.Local _ => true
  | LValue.Stack _ => true
  | LValue.StaticField field_ref =>
    match metadata.field_refs field_ref with
    | some f => (metadata.class_refs f.class_ref).isSome
    | none => false
  | LValue.InstanceField _ field_ref =>
    match metadata.field_refs field_ref with
    | some f => (metadata.class_refs f.class_ref).isSome
    | none => false

/-- Stack slots consumed by resolving an rvalue. -/
def rvalue_remove : RValue → Nat
  | RValue.Constant _ => 0
  | RValue.ConstantRef _ => 0
  | RValue.LValue lv => lvalue_remove lv

/-- Whether the metadata lookups an rvalue needs all succeed. -/
def rvalue_resolvable (metadata : Metadata) : RValue → Bool
  | RValue.Constant _ => true
  | RValue.ConstantRef const_ref => (metadata.literals const_ref).isSome
  | RValue.LValue lv => lvalue_resolvable metadata lv

/-- Modelled from the spec: the verifier-style stack contract of one
instruction — the operand depth it requires and its net stack effect ("balanced
pushes/pops matching JVM verifier rules"); `none` for the instruction kinds
the pass does not support and for unresolvable references. -/
def instEffect (metadata : Metadata) : Instruction → Option (Nat × Int)
  | Instruction.Nop => some (0, 0)
  | Instruction.Load rv =>
    if rvalue_resolvable metadata rv then
      some (rvalue_remove rv, 1 - (rvalue_remove rv : Int))
    else none
  | Instruction.Store lv =>
    if lvalue_resolvable metadata lv then
      some (lvalue_remove lv + 1, -((lvalue_remove lv : Int) + 1))
    else none
  | Instruction.Arithm a =>
    match a with
    | Arithm.UnaryOp _ => some (1, 0)
    | Arithm.BinaryOp _ => some (2, -1)
    | Arithm.IncreaseLocal _ _ => some (0, 0)
  | Instruction.Invoke method_index kind =>
    match metadata.method_refs method_index with
    | none => none
    | some mref =>
      match metadata.class_refs mref.class_ref with
      | none => none
      | some _ =>
        let argc : Nat := mref.signature.parameters.length
        let r : Nat :=
          match kind with
          | InvokeKind.Virtual => 1
          | InvokeKind.Special => 1
          | _ => 0
        some (argc + r,
          -((argc : Int) + r) +
            (if mref.signature.return_type = Typ.Void then 0 else 1))
  | Instruction.Return value =>
    match value with
    | none => some (0, 0)
    | some _ => some (1, -1)
  | _ => none

/-- Modelled from the spec: a "well-formed instruction sequence" starting at
depth `d` — every instruction is supported, resolvable, and finds the operand
depth it requires. -/
def wfFrom (metadata : Metadata) (d : Int) : List Instruction → Bool
  | [] => true
  | i :: is =>
    match instEffect metadata i with
    | none => false
    | some en => decide ((en.1 : Int) ≤ d) && wfFrom metadata (d + en.2) is

/-- The depth of the counter after each instruction of a sequence executed
from depth `d` (the observable C7 talks about). -/
def depthTrace (metadata : Metadata) : List Instruction → Int → Option (List Int)
  | [], _ => some []
  | i :: is, d =>
    (execute i metadata d).bind (fun r =>
      (depthTrace metadata is r.2).map (fun tr => r.2 :: tr))

/-- Metadata with empty lookup tables, for blocks touching no references. -/
def mdEmpty : Metadata :=
  { literals := fun _ => none, class_refs := fun _ => none,
    field_refs := fun _ => none, method_refs := fun _ => none }

/-- Metadata resolving method index 3 to a one-parameter void method of class
reference 7 — the concrete input of the C4 witness. -/
def mdInvoke : Metadata :=
  { literals := fun _ => none,
    class_refs := fun i => if i = 7 then some (Disassembler.ClassRef.mk "C") else none,
    field_refs := fun _ => none,
    method_refs := fun i =>
      if i = 3 then some (MethodRef.mk 7 "m" (Sig.mk [("a", Typ.Int)] Typ.Void))
      else none }

/-- The method reference that `mdInvoke` resolves index 3 to. -/
def mrefC4 : MethodRef := MethodRef.mk 7 "m" (Sig.mk [("a", Typ.Int)] Typ.Void)

/-- The class reference that `mdInvoke` resolves index 7 to. -/
def crefC4 : Disassembler.ClassRef := Disassembler.ClassRef.mk "C"

/-- The statement-level graph `transform` produces from `cfgOneBlock`. -/
def transformedOneBlock : Cfg Statement Expr :=
  { blocks := [BasicBlock.default], edges := [], entry_point := 0, exit_point := 0 }

/-- A block that just pushes the integer literal `i`. -/
def pushBlock (i : Int) : BasicBlock Instruction JumpCondition :=
  { stmts := [Instruction.Load (RValue.Constant (Literal.Integer i))],
    terminator := none }

/-- An empty instruction block. -/
def emptyBlock : BasicBlock Instruction JumpCondition :=
  { stmts := [], terminator := none }

/-- A diamond graph 0→{1,2}→3 where the path through node 2 pushes one more
value than the path through node 1, so the two predecessors of node 3 leave
different stack depths. -/
def cfgDiamond : Cfg Instruction JumpCondition :=
  { blocks := [pushBlock 1, emptyBlock, pushBlock 2, emptyBlock],
    edges := [(0, 1, 0), (0, 2, 0), (1, 3, 0), (2, 3, 0)],
    entry_point := 0, exit_point := 3 }

/-- A two-node edgeless graph whose entry point is node 1, not node 0 — the
C8 counterexample input. -/
def cfgEntryOne : Cfg Instruction JumpCondition :=
  { blocks := [pushBlock 1, pushBlock 2], edges := [],
    entry_point := 1, exit_point := 1 }

/-- A single empty block with no edges. -/
def cfgOneBlock : Cfg Instruction JumpCondition :=
  { blocks := [emptyBlock], edges := [], entry_point := 0, exit_point := 0 }

/-- A statement `stack_0 := local_0`, standing for pre-existing entry-block
content in the C5 failing input. -/
def stmtStackFromLocal : Statement :=
  Statement.Expr (Expr.Assign (Assignable.Variable "stack_0" 0) none
    (Expr.Assignable (Assignable.Variable "local_0" 0)))

/-- The synthetic receiver binding `local_0 := this` that `handle_parameters`
builds for non-static methods. -/
def thisAssignment : Statement :=
  Statement.Expr (Expr.Assign (Assignable.Variable "local_0" 0) none Expr.This)

/-- The C5 failing input: a non-static method with one parameter whose entry
block already contains a statement. -/
def methodC5 : Method (Cfg Statement Expr) :=
  { modifiers := [Modifier.Public],
    name := "m",
    signature := { parameters := [("p0", Typ.Int)], return_type := Typ.Void },
    code := some
      { blocks := [{ stmts := [stmtStackFromLocal], terminator := none }],
        edges := [], entry_point := 0, exit_point := 0 } }

/-- A well-formed straight-line sequence: push 5, push 7, subtract, return
the result — the C7 witness input. -/
def demoInsts : List Instruction :=
  [Instruction.Load (RValue.Constant (Literal.Integer 5)),
   Instruction.Load (RValue.Constant (Literal.Integer 7)),
   Instruction.Arithm (Arithm.BinaryOp BinaryOp.Sub),
   Instruction.Return (some ())]

end Decompiler

namespace Disassembler

/-- Whether a pool entry is a field/method reference whose name-and-type index
resolves to an entry of the wrong kind (the C9 premise). -/
def badNameAndTypeRef (cp : ConstantPool) : ConstantInfo → Bool
  | ConstantInfo.FieldRef _ name_index =>
    match cp.lookup name_index with
    | some (ConstantInfo.NameAndType _ _) => false
    | some _ => true
    | none => false
  | ConstantInfo.MethodRef _ name_index =>
    match cp.lookup name_index with
    | some (ConstantInfo.NameAndType _ _) => false
    | some _ => true
    | none => false
  | _ => false

/-- A pool whose field-reference entry points its name-and-type index at a
`Utf8` entry — the C9 witness input. -/
def cpBad : ConstantPool :=
  ConstantPool.mk [ConstantInfo.Utf8 "x", ConstantInfo.FieldRef 1 1]

end Disassembler

namespace Disassembler

/-- C2: the claim says `descriptor_to_signature "(ILjava/lang/String;)V"`
succeeds with parameters `[Int, Reference "java/lang/String"]` and return
`Void`.  On the code it does not: the parameter loop demands a `,` or `)`
after each parameter, so the standard JVM two-token parameter list panics
("Expected ')' or ','"), while the comma-separated variant of the same
descriptor parses to exactly the claimed signature.  This evaluates the code
at the failing input. -/
theorem descriptor_to_signature_jvm_descriptor_panics :
    descriptor_to_signature "(ILjava/lang/String;)V" = none ∧
    descriptor_to_signature "(I,Ljava/lang/String;)V" =
      some { parameters := [Typ.Int, Typ.Reference "java/lang/String"],
             return_type := Typ.Void } :=
  ⟨rfl, rfl⟩

/-- C6 counterexample: parsing the unterminated class-name descriptor
`"Ljava/lang/Foo"` is claimed to be a fatal parse error, but
`descriptor_to_type` succeeds on it, returning `Reference "java/lang/Foo"`
with the input exhausted. -/
theorem descriptor_to_type_unterminated_succeeds :
    descriptor_to_type "Ljava/lang/Foo".toList =
      some (Typ.Reference "java/lang/Foo", []) := rfl

/-- C6 amended: parsing a descriptor whose class-name token is unterminated
(no `;` anywhere after the leading `L`) is not an error: `descriptor_to_type`
consumes the whole remaining input and returns `Reference` of all of it. -/
theorem descriptor_to_type_unterminated_returns_reference (name : List Char)
    (h : ';' ∉ name) :
    descriptor_to_type ('L' :: name) =
      some (Typ.Reference (String.mk name), []) := by
  have ht : name.takeWhile (fun ch => ch ≠ ';') = name := by
    rw [List.takeWhile_eq_self_iff]
    intro a ha
    simp only [ne_eq, decide_eq_true_eq]
    intro hc; exact h (hc ▸ ha)
  have hd : name.dropWhile (fun ch => ch ≠ ';') = [] := by
    rw [List.dropWhile_eq_nil_iff]
    intro a ha
    simp only [ne_eq, decide_eq_true_eq]
    intro hc; exact h (hc ▸ ha)
  calc descriptor_to_type ('L' :: name)
      = some (Typ.Reference (String.mk (name.takeWhile (fun ch => ch ≠ ';'))),
          (name.dropWhile (fun ch => ch ≠ ';')).drop 1) := rfl
    _ = some (Typ.Reference (String.mk name), []) := by rw [ht, hd]; rfl

/-- C6 amended, witnessed at the concrete unterminated name of the claim. -/
theorem descriptor_to_type_unterminated_returns_reference_witness :
    ';' ∉ "java/lang/Foo".toList ∧
    descriptor_to_type ('L' :: "java/lang/Foo".toList) =
      some (Typ.Reference (String.mk "java/lang/Foo".toList), []) :=
  ⟨by decide, descriptor_to_type_unterminated_returns_reference
    "java/lang/Foo".toList (by decide)⟩

/-- Helper for C9: a field/method reference whose name-and-type index resolves
to a wrong-kind entry makes its own processing step fail. -/
theorem process_entry_bad (cp : ConstantPool) (u : UnitTables) (idx : Nat)
    (c : ConstantInfo) (h : badNameAndTypeRef cp c = true) :
    process_entry cp u idx c = none := by
  cases c
  case Utf8 s => simp [badNameAndTypeRef] at h
  case Integer i => simp [badNameAndTypeRef] at h
  case Class ni => simp [badNameAndTypeRef] at h
  case Str si => simp [badNameAndTypeRef] at h
  case FieldRef ci ni =>
    rw [badNameAndTypeRef] at h
    cases hl : cp.lookup ni with
    | none => simp [hl] at h
    | some e =>
      simp only [hl] at h
      cases e <;> simp [process_entry, hl] <;> simp at h
  case MethodRef ci ni =>
    rw [badNameAndTypeRef] at h
    cases hl : cp.lookup ni with
    | none => simp [hl] at h
    | some e =>
      simp only [hl] at h
      cases e <;> simp [process_entry, hl] <;> simp at h
  case NameAndType ni di => simp [badNameAndTypeRef] at h

/-- Helper for C9: the processing fold fails as soon as any entry of the
suffix is a bad field/method reference (earlier failures also yield `none`). -/
theorem process_from_bad :
    ∀ (cs : List ConstantInfo) (cp : ConstantPool) (u : UnitTables) (idx : Nat),
      (∃ c ∈ cs, badNameAndTypeRef cp c = true) →
      process_from cp u idx cs = none := by
  intro cs
  induction cs with
  | nil => intro _ _ _ h; simp at h
  | cons c cs ih =>
    intro cp u idx h
    rw [process_from]
    obtain ⟨c', hc', hbad⟩ := h
    rcases List.mem_cons.mp hc' with rfl | htail
    · rw [process_entry_bad cp u idx c' hbad]; rfl
    · cases hpe : process_entry cp u idx c with
      | none => rfl
      | some u' => exact ih cp u' (idx + 1) ⟨c', htail, hbad⟩

/-- C9: resolving a constant pool that contains a field-reference or
method-reference entry whose name-and-type index points to an entry that is
not a `NameAndType` entry is a fatal structural error: `process_constant_pool`
fails on such a pool rather than producing a reference for that index. -/
theorem process_constant_pool_rejects_bad_name_and_type (cp : ConstantPool)
    (h : ∃ c ∈ cp.constants, badNameAndTypeRef cp c = true) :
    process_constant_pool cp = none :=
  process_from_bad cp.constants cp UnitTables.empty 1 h

/-- C9 witnessed at a pool whose field reference points its name-and-type
index at a `Utf8` entry. -/
theorem process_constant_pool_rejects_bad_name_and_type_witness :
    (∃ c ∈ cpBad.constants, badNameAndTypeRef cpBad c = true) ∧
    process_constant_pool cpBad = none :=
  ⟨⟨ConstantInfo.FieldRef 1 1, by decide, by decide⟩,
   process_constant_pool_rejects_bad_name_and_type cpBad
     ⟨ConstantInfo.FieldRef 1 1, by decide, by decide⟩⟩

end Disassembler

namespace Decompiler

/-- C5: the claim says the synthetic `local_0 := this` assignment of a
non-static method is prepended as the first statement of the entry block.  On
the code it is not: `handle_parameters` builds the assignment but appends it
(`Vec::append`) AFTER the statements the entry block already contains, so for
a non-static one-parameter method whose entry block holds `stack_0 := local_0`
the result is `[stack_0 := local_0, local_0 := this]`; the parameter is
renamed to `local_1` with no statement emitted, as claimed.  This evaluates
the code at that failing input. -/
theorem handle_parameters_appends_this_assignment :
    handle_parameters methodC5 =
      some { modifiers := [Modifier.Public],
             name := "m",
             signature := { parameters := [("local_1", Typ.Int)],
                            return_type := Typ.Void },
             code := some
               { blocks := [{ stmts := [stmtStackFromLocal, thisAssignment],
                              terminator := none }],
                 edges := [], entry_point := 0, exit_point := 0 } } := rfl

/-- C3: a binary arithmetic instruction at depth `d ≥ 2` pops the right
operand (slot `d-1`) first and the left operand (slot `d-2`) second, and the
emitted expression puts the slot popped second first: the result assignment
is `stack(d-2) := stack(d-2) op stack(d-1)` at final depth `d-1`.  The
two-operand jump conditions behave the same way, producing
`stack(d-2) cmp stack(d-1)` at final depth `d-2`. -/
theorem binary_op_operand_order (d : Int) (h : 2 ≤ d) (op : BinaryOp)
    (ord : Comparison) (metadata : Metadata) :
    execute (Instruction.Arithm (Arithm.BinaryOp op)) metadata d =
      some ([stmt_expr (Expr.Assign (Assignable.Variable (stack (d - 2)) 0) none
        (Expr.BinaryOp (convert_bin_op op)
          (mk_variable (stack (d - 2))) (mk_variable (stack (d - 1)))))], d - 1) ∧
    cond_to_expr (JumpCondition.Cmp ord) d =
      some (Expr.BinaryOp (BinOp.Cmp ord)
        (mk_variable (stack (d - 2))) (mk_variable (stack (d - 1))), d - 2) ∧
    cond_to_expr (JumpCondition.CmpRef ord) d =
      some (Expr.BinaryOp (BinOp.Cmp ord)
        (mk_variable (stack (d - 2))) (mk_variable (stack (d - 1))), d - 2) := by
  have h1 : (0 : Int) ≤ d - 1 := by omega
  have h2 : (0 : Int) ≤ d - 1 - 1 := by omega
  have h3 : d - 1 - 1 = d - 2 := by omega
  have h4 : d - 2 + 1 = d - 1 := by omega
  refine ⟨?_, ?_, ?_⟩ <;>
    simp [execute, cond_to_expr, StackLayout.pop, StackLayout.push,
      h1, h2, h3, h4] <;>
    omega

/-- C3 witnessed for subtraction at depth 2: the result is
`stack_0 := stack_0 - stack_1`, not the reverse. -/
theorem binary_op_operand_order_witness :
    execute (Instruction.Arithm (Arithm.BinaryOp BinaryOp.Sub)) mdEmpty 2 =
      some ([stmt_expr (Expr.Assign (Assignable.Variable (stack 0) 0) none
        (Expr.BinaryOp BinOp.Sub (mk_variable (stack 0))
          (mk_variable (stack 1))))], 1) ∧
    cond_to_expr (JumpCondition.Cmp Comparison.Eq) 2 =
      some (Expr.BinaryOp (BinOp.Cmp Comparison.Eq)
        (mk_variable (stack 0)) (mk_variable (stack 1)), 0) ∧
    cond_to_expr (JumpCondition.CmpRef Comparison.Eq) 2 =
      some (Expr.BinaryOp (BinOp.Cmp Comparison.Eq)
        (mk_variable (stack 0)) (mk_variable (stack 1)), 0) :=
  binary_op_operand_order 2 (by decide) BinaryOp.Sub Comparison.Eq mdEmpty

/-- C4: an invoke at depth `s` pops exactly `signature.parameters.length`
argument slots (the highest-indexed slots below the top, used in order as the
call arguments), pops one receiver slot below them iff the invocation kind is
`Virtual` or `Special` (not `Static` or `Interface`), emits a bare call
statement at the post-argument/receiver baseline when the return type is
`Void`, and otherwise pushes one result slot (net `+1` over that baseline)
and emits an assignment of the call into it. -/
theorem invoke_stack_effect (s : Int) (mi : Nat) (kind : InvokeKind)
    (metadata : Metadata) (mref : MethodRef) (cref : Disassembler.ClassRef)
    (hm : metadata.method_refs mi = some mref)
    (hc : metadata.class_refs mref.class_ref = some cref)
    (hdep : (mref.signature.parameters.length : Int) +
      (if kind = InvokeKind.Virtual ∨ kind = InvokeKind.Special then 1 else 0) ≤ s) :
    execute (Instruction.Invoke mi kind) metadata s =
      some
        ((if mref.signature.return_type = Typ.Void then
            [stmt_expr (Expr.Invoke
              (if kind = InvokeKind.Virtual ∨ kind = InvokeKind.Special then
                some (mk_variable (stack (s - mref.signature.parameters.length - 1)))
               else none)
              mref cref
              ((List.range mref.signature.parameters.length).map
                (fun j => mk_variable (stack (s - mref.signature.parameters.length + j)))))]
          else
            [stmt_expr (Expr.Assign
              (Assignable.Variable (stack (s - mref.signature.parameters.length -
                (if kind = InvokeKind.Virtual ∨ kind = InvokeKind.Special then 1 else 0))) 0)
              none
              (Expr.Invoke
                (if kind = InvokeKind.Virtual ∨ kind = InvokeKind.Special then
                  some (mk_variable (stack (s - mref.signature.parameters.length - 1)))
                 else none)
                mref cref
                ((List.range mref.signature.parameters.length).map
                  (fun j => mk_variable (stack (s - mref.signature.parameters.length + j))))))]),
         s - mref.signature.parameters.length -
           (if kind = InvokeKind.Virtual ∨ kind = InvokeKind.Special then 1 else 0) +
           (if mref.signature.return_type = Typ.Void then 0 else 1)) := by
  cases kind
  case Virtual =>
    have hr : InvokeKind.Virtual = InvokeKind.Virtual ∨
        InvokeKind.Virtual = InvokeKind.Special := Or.inl rfl
    rw [if_pos hr] at hdep
    have h1 : (0 : Int) ≤ s - mref.signature.parameters.length - 1 := by omega
    by_cases hv : mref.signature.return_type = Typ.Void <;>
      simp [execute, hm, hc, StackLayout.pop, StackLayout.push, h1, hv, hr] <;>
      omega
  case Special =>
    have hr : InvokeKind.Special = InvokeKind.Virtual ∨
        InvokeKind.Special = InvokeKind.Special := Or.inr rfl
    rw [if_pos hr] at hdep
    have h1 : (0 : Int) ≤ s - mref.signature.parameters.length - 1 := by omega
    by_cases hv : mref.signature.return_type = Typ.Void <;>
      simp [execute, hm, hc, StackLayout.pop, StackLayout.push, h1, hv, hr] <;>
      omega
  case Static =>
    have hr : ¬(InvokeKind.Static = InvokeKind.Virtual ∨
        InvokeKind.Static = InvokeKind.Special) := by decide
    by_cases hv : mref.signature.return_type = Typ.Void <;>
      simp [execute, hm, hc, StackLayout.pop, StackLayout.push, hv, hr]
  case Interface =>
    have hr : ¬(InvokeKind.Interface = InvokeKind.Virtual ∨
        InvokeKind.Interface = InvokeKind.Special) := by decide
    by_cases hv : mref.signature.return_type = Typ.Void <;>
      simp [execute, hm, hc, StackLayout.pop, StackLayout.push, hv, hr]

/-- C4 witnessed for a virtual void one-parameter call at depth 2: the
argument is slot 1, the receiver slot 0, a bare statement is emitted and the
final depth is 0. -/
theorem invoke_stack_effect_witness :
    execute (Instruction.Invoke 3 InvokeKind.Virtual) mdInvoke 2 =
      some ([stmt_expr (Expr.Invoke (some (mk_variable (stack 0))) mrefC4 crefC4
        [mk_variable (stack 1)])], 0) :=
  invoke_stack_effect 2 3 InvokeKind.Virtual mdInvoke mrefC4 crefC4 rfl rfl
    (by decide)

end Decompiler

namespace Decompiler

/-- Helper for C7: an instruction whose verifier contract is satisfied at depth `d` executes successfully and moves the counter by exactly its net effect. -/
theorem execute_of_instEffect (metadata : Metadata) (i : Instruction)
    (req : Nat) (net : Int) (d : Int)
    (he : instEffect metadata i = some (req, net)) (hreq : (req : Int) ≤ d) :
    ∃ stmts, execute i metadata d = some (stmts, d + net) := by
  cases i
  case Nop =>
    simp only [instEffect, Option.some.injEq, Prod.mk.injEq] at he
    obtain ⟨h1, h2⟩ := he
    subst h2
    simp [execute]
  case Load rv =>
    rw [instEffect] at he
    split at he
    case isTrue hres =>
      injection he with he'
      injection he' with he1 he2
      subst he1; subst he2
      cases rv
      case Constant lit =>
        simp [execute, make_stack_vars_rvalue, StackLayout.push, rvalue_remove] <;> omega
      case ConstantRef cr =>
        simp [rvalue_resolvable, Option.isSome_iff_exists] at hres
        obtain ⟨l, hl⟩ := hres
        simp [execute, make_stack_vars_rvalue, hl, StackLayout.push, rvalue_remove] <;> omega
      case LValue lv =>
        cases lv
        case Local idx =>
          simp [execute, make_stack_vars_rvalue, make_stack_vars_lvalue,
            StackLayout.push, rvalue_remove, lvalue_remove] <;> omega
        case Stack idx =>
          simp [execute, make_stack_vars_rvalue, make_stack_vars_lvalue,
            StackLayout.push, rvalue_remove, lvalue_remove] <;> omega
        case StaticField fr =>
          simp [rvalue_resolvable, lvalue_resolvable] at hres
          rcases hf : metadata.field_refs fr with _ | f
          · rw [hf] at hres; exact absurd hres (by simp)
          · rw [hf] at hres
            rw [Option.isSome_iff_exists] at hres
            obtain ⟨c, hcl⟩ := hres
            simp [execute, make_stack_vars_rvalue, make_stack_vars_lvalue, hf, hcl,
              StackLayout.push, rvalue_remove, lvalue_remove] <;> omega
        case InstanceField osi fr =>
          simp [rvalue_resolvable, lvalue_resolvable] at hres
          rcases hf : metadata.field_refs fr with _ | f
          · rw [hf] at hres; exact absurd hres (by simp)
          · rw [hf] at hres
            rw [Option.isSome_iff_exists] at hres
            obtain ⟨c, hcl⟩ := hres
            simp [execute, make_stack_vars_rvalue, make_stack_vars_lvalue, hf, hcl,
              StackLayout.push, rvalue_remove, lvalue_remove] <;> omega
    case isFalse => exact absurd he (by simp)
  case Store lv =>
    rw [instEffect] at he
    split at he
    case isTrue hres =>
      injection he with he'
      injection he' with he1 he2
      subst he1; subst he2
      cases lv
      case Local idx =>
        simp only [execute, make_stack_vars_lvalue, Option.bind_some]
        have hp : StackLayout.pop d = some (d - 1) := by
          simp [StackLayout.pop]; simp [lvalue_remove] at hreq; omega
        simp [hp, lvalue_remove] <;> omega
      case Stack idx =>
        simp only [execute, make_stack_vars_lvalue, Option.bind_some]
        have hp : StackLayout.pop (d - 1) = some (d - 1 - 1) := by
          simp [StackLayout.pop]; simp [lvalue_remove] at hreq; omega
        simp [hp, lvalue_remove] <;> omega
      case StaticField fr =>
        simp [lvalue_resolvable] at hres
        rcases hf : metadata.field_refs fr with _ | f
        · rw [hf] at hres; exact absurd hres (by simp)
        · rw [hf] at hres
          rw [Option.isSome_iff_exists] at hres
          obtain ⟨c, hcl⟩ := hres
          simp only [execute, make_stack_vars_lvalue, hf, hcl, Option.bind_some]
          have hp : StackLayout.pop d = some (d - 1) := by
            simp [StackLayout.pop]; simp [lvalue_remove] at hreq; omega
          simp [hp, hcl, lvalue_remove] <;> omega
      case InstanceField osi fr =>
        simp [lvalue_resolvable] at hres
        rcases hf : metadata.field_refs fr with _ | f
        · rw [hf] at hres; exact absurd hres (by simp)
        · rw [hf] at hres
          rw [Option.isSome_iff_exists] at hres
          obtain ⟨c, hcl⟩ := hres
          simp only [execute, make_stack_vars_lvalue, hf, hcl, Option.bind_some]
          have hp : StackLayout.pop (d - 1) = some (d - 1 - 1) := by
            simp [StackLayout.pop]; simp [lvalue_remove] at hreq; omega
          simp [hp, hcl, lvalue_remove] <;> omega
    case isFalse => exact absurd he (by simp)
  case Arithm a =>
    cases a
    case UnaryOp op =>
      simp only [instEffect, Option.some.injEq, Prod.mk.injEq] at he
      obtain ⟨h1, h2⟩ := he
      subst h1; subst h2
      have hp : StackLayout.pop d = some (d - 1) := by
        simp [StackLayout.pop]; omega
      simp [execute, hp, StackLayout.push] <;> omega
    case BinaryOp op =>
      simp only [instEffect, Option.some.injEq, Prod.mk.injEq] at he
      obtain ⟨h1, h2⟩ := he
      subst h1; subst h2
      have hp : StackLayout.pop d = some (d - 1) := by
        simp [StackLayout.pop]; omega
      have hp2 : StackLayout.pop (d - 1) = some (d - 1 - 1) := by
        simp [StackLayout.pop]; omega
      simp [execute, hp, hp2, StackLayout.push] <;> omega
    case IncreaseLocal li inc =>
      simp only [instEffect, Option.some.injEq, Prod.mk.injEq] at he
      obtain ⟨h1, h2⟩ := he
      subst h2
      simp [execute]
  case TypeConv => simp [instEffect] at he
  case ObjManip => simp [instEffect] at he
  case StackManage => simp [instEffect] at he
  case Jump => simp [instEffect] at he
  case Invoke mi kind =>
    cases hmr : metadata.method_refs mi with
    | none => simp [instEffect, hmr] at he
    | some mref =>
      cases hcl : metadata.class_refs mref.class_ref with
      | none => simp [instEffect, hmr, hcl] at he
      | some cref =>
        cases kind
        case Virtual =>
          simp only [instEffect, hmr, hcl, Option.some.injEq, Prod.mk.injEq] at he
          obtain ⟨h1, h2⟩ := he
          subst h1; subst h2
          have hp : (0 : Int) ≤ d - mref.signature.parameters.length - 1 := by
            push_cast at hreq; omega
          by_cases hv : mref.signature.return_type = Typ.Void <;>
          · simp [execute, hmr, hcl, StackLayout.pop, StackLayout.push, hv, hp] <;> (push_cast; omega)
        case Special =>
          simp only [instEffect, hmr, hcl, Option.some.injEq, Prod.mk.injEq] at he
          obtain ⟨h1, h2⟩ := he
          subst h1; subst h2
          have hp : (0 : Int) ≤ d - mref.signature.parameters.length - 1 := by
            push_cast at hreq; omega
          by_cases hv : mref.signature.return_type = Typ.Void <;>
          · simp [execute, hmr, hcl, StackLayout.pop, StackLayout.push, hv, hp] <;> (push_cast; omega)
        case Static =>
          simp only [instEffect, hmr, hcl, Option.some.injEq, Prod.mk.injEq] at he
          obtain ⟨h1, h2⟩ := he
          subst h1; subst h2
          by_cases hv : mref.signature.return_type = Typ.Void <;>
          · simp [execute, hmr, hcl, StackLayout.push, hv] <;> (push_cast; omega)
        case Interface =>
          simp only [instEffect, hmr, hcl, Option.some.injEq, Prod.mk.injEq] at he
          obtain ⟨h1, h2⟩ := he
          subst h1; subst h2
          by_cases hv : mref.signature.return_type = Typ.Void <;>
          · simp [execute, hmr, hcl, StackLayout.push, hv] <;> (push_cast; omega)
  case Throw => simp [instEffect] at he
  case Return v =>
    cases v
    case none =>
      simp only [instEffect, Option.some.injEq, Prod.mk.injEq] at he
      obtain ⟨h1, h2⟩ := he
      subst h2
      simp [execute]
    case some u =>
      simp only [instEffect, Option.some.injEq, Prod.mk.injEq] at he
      obtain ⟨h1, h2⟩ := he
      subst h1; subst h2
      have hp : StackLayout.pop d = some (d - 1) := by
        simp [StackLayout.pop]; omega
      simp [execute, hp] <;> omega
  case Synchronized => simp [instEffect] at he

/-- Helper for C7: no instruction drops the counter below `d - required`, i.e. required-plus-net is never negative. -/
theorem instEffect_req_add_net_nonneg (metadata : Metadata) (i : Instruction)
    (req : Nat) (net : Int) (he : instEffect metadata i = some (req, net)) :
    0 ≤ (req : Int) + net := by
  cases i
  case Nop =>
    simp only [instEffect, Option.some.injEq, Prod.mk.injEq] at he
    obtain ⟨h1, h2⟩ := he
    omega
  case Load rv =>
    rw [instEffect] at he
    split at he
    · injection he with he'
      injection he' with he1 he2
      omega
    · exact absurd he (by simp)
  case Store lv =>
    rw [instEffect] at he
    split at he
    · injection he with he'
      injection he' with he1 he2
      omega
    · exact absurd he (by simp)
  case Arithm a =>
    cases a <;>
      simp only [instEffect, Option.some.injEq, Prod.mk.injEq] at he <;>
      omega
  case TypeConv => simp [instEffect] at he
  case ObjManip => simp [instEffect] at he
  case StackManage => simp [instEffect] at he
  case Jump => simp [instEffect] at he
  case Invoke mi kind =>
    cases hmr : metadata.method_refs mi with
    | none => simp [instEffect, hmr] at he
    | some mref =>
      cases hcl : metadata.class_refs mref.class_ref with
      | none => simp [instEffect, hmr, hcl] at he
      | some cref =>
        cases kind <;>
          simp only [instEffect, hmr, hcl, Option.some.injEq, Prod.mk.injEq] at he <;>
          obtain ⟨h1, h2⟩ := he <;>
          subst h1 <;> subst h2 <;>
          split <;> push_cast <;> omega
  case Throw => simp [instEffect] at he
  case Return v =>
    cases v <;>
      simp only [instEffect, Option.some.injEq, Prod.mk.injEq] at he <;>
      omega
  case Synchronized => simp [instEffect] at he

/-- Helper for C7: executing a well-formed sequence from a non-negative depth succeeds and every intermediate depth is non-negative. -/
theorem wf_depthTrace_nonneg (metadata : Metadata) :
    ∀ (insts : List Instruction) (d : Int), 0 ≤ d →
      wfFrom metadata d insts = true →
      ∃ tr, depthTrace metadata insts d = some tr ∧ ∀ x ∈ tr, 0 ≤ x := by
  intro insts
  induction insts with
  | nil =>
    intro d _ _
    exact ⟨[], by simp [depthTrace], by simp⟩
  | cons i rest ih =>
    intro d hd hwf
    rw [wfFrom] at hwf
    rcases he : instEffect metadata i with _ | en
    · rw [he] at hwf; simp at hwf
    · rw [he] at hwf
      simp only [Bool.and_eq_true, decide_eq_true_eq] at hwf
      obtain ⟨hreq, hrest⟩ := hwf
      obtain ⟨stmts, hex⟩ :=
        execute_of_instEffect metadata i en.1 en.2 d (by rw [he]) hreq
      have hnn := instEffect_req_add_net_nonneg metadata i en.1 en.2 (by rw [he])
      have hd' : 0 ≤ d + en.2 := by omega
      obtain ⟨tr, htr, hall⟩ := ih (d + en.2) hd' hrest
      refine ⟨(d + en.2) :: tr, ?_, ?_⟩
      · simp [depthTrace, hex, htr]
      · intro x hx
        rcases List.mem_cons.mp hx with h | h
        · subst h; exact hd'
        · exact hall x h

/-- Reading back an in-bounds write to the entry-depth array. -/
theorem getD_set_self : ∀ (l : List (Option Int)) (i : Nat) (x : Option Int),
    i < l.length → (l.set i x).getD i none = x
  | [], i, x, h => by simp at h
  | _ :: _, 0, x, _ => rfl
  | _ :: l, i + 1, x, h => getD_set_self l i x (by simpa using h)

/-- Writes to the entry-depth array do not alter other slots. -/
theorem getD_set_ne : ∀ (l : List (Option Int)) (i j : Nat) (x : Option Int),
    i ≠ j → (l.set i x).getD j none = l.getD j none
  | [], _, _, _, _ => rfl
  | _ :: _, 0, 0, _, h => absurd rfl h
  | _ :: _, 0, _ + 1, _, _ => rfl
  | _ :: _, _ + 1, 0, _, _ => rfl
  | _ :: l, i + 1, j + 1, x, h =>
    getD_set_ne l i j x (fun hh => h (by rw [hh]))

/-- Once a successor's entry depth is recorded, the successor loop never changes it. -/
theorem processSuccs_preserves :
    ∀ (succs : List Nat) (st st' : List (Option Int)) (e : Int),
      processSuccs e succs st = Except.ok st' →
      ∀ i x, st.getD i none = some x → st'.getD i none = some x := by
  intro succs
  induction succs with
  | nil =>
    intro st st' e h i x hx
    rw [processSuccs] at h
    injection h with h'
    rw [← h']
    exact hx
  | cons w ws ih =>
    intro st st' e h i x hx
    rw [processSuccs] at h
    cases hw : st.getD w none with
    | some found =>
      simp only [hw] at h
      by_cases hef : e = found
      · rw [if_pos hef] at h
        exact ih st st' e h i x hx
      · rw [if_neg hef] at h
        cases h
    | none =>
      simp only [hw] at h
      apply ih _ _ _ h
      by_cases hiw : w = i
      · subst hiw; rw [hw] at hx; cases hx
      · rw [getD_set_ne _ _ _ _ hiw]; exact hx

/-- Invariants of the DFS walk: the visit order extends the accumulator, the block array keeps its length, recorded entry depths persist, and blocks of unvisited nodes are untouched. -/
theorem walk_ok_props (metadata : Metadata) (edges : List (Nat × Nat × Int))
    (blocks : List (BasicBlock Instruction JumpCondition)) :
    ∀ (fuel : Nat) (stk disc : List Nat) (stackAt : List (Option Int))
      (newBbs : List (BasicBlock Statement Expr)) (visited : List Nat)
      (visF : List Nat) (sF : List (Option Int))
      (bF : List (BasicBlock Statement Expr)),
      walk metadata edges blocks fuel stk disc stackAt newBbs visited =
        Except.ok (visF, sF, bF) →
      (∃ ext, visF = visited.reverse ++ ext) ∧
      bF.length = newBbs.length ∧
      (∀ i x, stackAt.getD i none = some x → sF.getD i none = some x) ∧
      (∀ i, i ∉ visF → bF.get? i = newBbs.get? i) := by
  intro fuel
  induction fuel with
  | zero =>
    intro stk disc stackAt newBbs visited visF sF bF h
    simp [walk] at h
  | succ n ih =>
    intro stk disc stackAt newBbs visited visF sF bF h
    cases stk with
    | nil =>
      rw [walk] at h
      injection h with h'
      obtain ⟨h1, h2⟩ := Prod.mk.inj h'
      obtain ⟨h3, h4⟩ := Prod.mk.inj h2
      subst h1; subst h3; subst h4
      exact ⟨⟨[], by simp⟩, rfl, fun i x hx => hx, fun i _ => rfl⟩
    | cons v rest =>
      rw [walk] at h
      by_cases hv : v ∈ disc
      · rw [if_pos hv] at h
        exact ih _ _ _ _ _ _ _ _ h
      · rw [if_neg hv] at h
        cases hs : stackAt.getD v none with
        | none => simp only [hs] at h; cases h
        | some s0 =>
          simp only [hs] at h
          cases hb : blocks.get? v with
          | none => simp only [hb] at h; cases h
          | some bb =>
            simp only [hb] at h
            cases hex : execInsts metadata bb.stmts s0 with
            | none => simp only [hex] at h; cases h
            | some body =>
              simp only [hex] at h
              cases hterm : execTerminator bb.terminator body.2 with
              | none => simp only [hterm] at h; cases h
              | some termRes =>
                simp only [hterm] at h
                cases hps : processSuccs termRes.2 (successors edges v) stackAt with
                | error e => simp only [hps] at h; cases h
                | ok st2 =>
                  simp only [hps] at h
                  obtain ⟨⟨ext, hvis⟩, hlen, hmono, hunvis⟩ :=
                    ih _ _ _ _ _ _ _ _ h
                  have hvmem : v ∈ visF := by
                    rw [hvis, List.reverse_cons]
                    simp
                  refine ⟨⟨[v] ++ ext, ?_⟩, ?_, ?_, ?_⟩
                  · rw [hvis, List.reverse_cons, List.append_assoc]
                  · rw [hlen, List.length_set]
                  · intro i x hx
                    exact hmono i x
                      (processSuccs_preserves _ _ _ _ hps i x hx)
                  · intro i hi
                    have hne : v ≠ i := fun hh => hi (hh ▸ hvmem)
                    rw [hunvis i hi, List.get?_set_ne _ _ hne]

/-- An out-of-range write to the entry-depth array is a no-op. -/
theorem set_of_length_le : ∀ (l : List (Option Int)) (i : Nat) (x : Option Int),
    l.length ≤ i → l.set i x = l
  | [], _, _, _ => rfl
  | _ :: _, 0, _, h => by simp at h
  | a :: l, i + 1, x, h =>
    congrArg (a :: ·) (set_of_length_le l i x (by simpa using h))

/-- Helper for C1, success direction: when the successor loop completes, every successor's entry depth equals the processed block's exit depth, and any depth already recorded equalled it. -/
theorem processSuccs_ok_forall :
    ∀ (succs : List Nat) (e : Int) (st st' : List (Option Int)),
      (∀ w ∈ succs, w < st.length) →
      processSuccs e succs st = Except.ok st' →
      ∀ w ∈ succs, st'.getD w none = some e ∧
        (∀ s, st.getD w none = some s → s = e) := by
  intro succs
  induction succs with
  | nil => intro e st st' _ _ w hw; simp at hw
  | cons w0 ws ih =>
    intro e st st' hb h w hw
    rw [processSuccs] at h
    cases hw0 : st.getD w0 none with
    | some found =>
      simp only [hw0] at h
      by_cases hef : e = found
      · rw [if_pos hef] at h
        rcases List.mem_cons.mp hw with rfl | hwtail
        · refine ⟨?_, ?_⟩
          · exact processSuccs_preserves _ _ _ _ h w e (hef ▸ hw0)
          · intro s hs
            rw [hw0] at hs
            injection hs with hs'
            rw [← hs', ← hef]
        · exact ih e st st' (fun u hu => hb u (List.mem_cons_of_mem _ hu)) h w hwtail
      · rw [if_neg hef] at h; cases h
    | none =>
      simp only [hw0] at h
      rcases List.mem_cons.mp hw with rfl | hwtail
      · refine ⟨?_, ?_⟩
        · exact processSuccs_preserves _ _ _ _ h w e
            (getD_set_self st w (some e) (hb w (List.mem_cons_self _ _)))
        · intro s hs; rw [hw0] at hs; cases hs
      · obtain ⟨ha, hbtail⟩ := ih e (st.set w0 (some e)) st'
          (fun u hu => by rw [List.length_set]; exact hb u (List.mem_cons_of_mem _ hu))
          h w hwtail
        refine ⟨ha, ?_⟩
        intro s hs
        by_cases hww : w0 = w
        · subst hww; rw [hw0] at hs; cases hs
        · exact hbtail s (by rw [getD_set_ne _ _ _ _ hww]; exact hs)

/-- Helper for C1, failure direction: if some successor's recorded depth differs from the exit depth, the loop fails with a mismatch error naming such a successor. -/
theorem processSuccs_mismatch :
    ∀ (succs : List Nat) (e : Int) (st : List (Option Int)),
      (∃ w ∈ succs, ∃ s, st.getD w none = some s ∧ s ≠ e) →
      ∃ w s, st.getD w none = some s ∧ s ≠ e ∧
        processSuccs e succs st = Except.error (TransformError.mismatch e w s) := by
  intro succs
  induction succs with
  | nil => intro e st h; simp at h
  | cons w0 ws ih =>
    intro e st h
    cases hw0 : st.getD w0 none with
    | some found =>
      by_cases hef : e = found
      · have htail : ∃ w ∈ ws, ∃ s, st.getD w none = some s ∧ s ≠ e := by
          obtain ⟨w, hw, s, hs, hne⟩ := h
          rcases List.mem_cons.mp hw with rfl | hwt
          · rw [hw0] at hs
            injection hs with hs'
            exact absurd (hs' ▸ hef.symm) hne
          · exact ⟨w, hwt, s, hs, hne⟩
        obtain ⟨w, s, hs, hne, hres⟩ := ih e st htail
        have hstep : processSuccs e (w0 :: ws) st = processSuccs e ws st := by
          rw [processSuccs]; simp only [hw0]; rw [if_pos hef]
        exact ⟨w, s, hs, hne, hstep.trans hres⟩
      · have hstep : processSuccs e (w0 :: ws) st =
            Except.error (TransformError.mismatch e w0 found) := by
          rw [processSuccs]; simp only [hw0]; rw [if_neg hef]
        exact ⟨w0, found, hw0, fun hh => hef hh.symm, hstep⟩
    | none =>
      have htail : ∃ w ∈ ws, ∃ s,
          (st.set w0 (some e)).getD w none = some s ∧ s ≠ e := by
        obtain ⟨w, hw, s, hs, hne⟩ := h
        rcases List.mem_cons.mp hw with rfl | hwt
        · rw [hw0] at hs; cases hs
        · refine ⟨w, hwt, s, ?_, hne⟩
          by_cases hww : w0 = w
          · subst hww; rw [hw0] at hs; cases hs
          · rw [getD_set_ne _ _ _ _ hww]; exact hs
      obtain ⟨w, s, hs, hne, hres⟩ := ih e (st.set w0 (some e)) htail
      refine ⟨w, s, ?_, hne, ?_⟩
      · by_cases hww : w0 = w
        · subst hww
          by_cases hlen : w0 < st.length
          · rw [getD_set_self st w0 (some e) hlen] at hs
            injection hs with hs'
            exact absurd hs'.symm hne
          · rw [set_of_length_le st w0 (some e) (Nat.le_of_not_lt hlen)] at hs
            rw [hw0] at hs; cases hs
        · rw [getD_set_ne _ _ _ _ hww] at hs; exact hs
      · have hstep : processSuccs e (w0 :: ws) st =
            processSuccs e ws (st.set w0 (some e)) := by
          rw [processSuccs]; simp only [hw0]
        exact hstep.trans hres

/-- `getD` through `get?` on block lists. -/
theorem bb_getD_get? :
    ∀ (l : List (BasicBlock Statement Expr)) (i : Nat),
      l.getD i BasicBlock.default = (l.get? i).getD BasicBlock.default
  | [], _ => rfl
  | _ :: _, 0 => rfl
  | _ :: l, i + 1 => bb_getD_get? l i

/-- `get?` on a replicated list of default blocks. -/
theorem replicate_get? :
    ∀ (n : Nat) (i : Nat),
      (List.replicate n (BasicBlock.default : BasicBlock Statement Expr)).get? i =
        if i < n then some BasicBlock.default else none := by
  intro n
  induction n with
  | zero => intro i; simp
  | succ m ih =>
    intro i
    cases i with
    | zero => simp [List.replicate]
    | succ j => simp only [List.replicate, List.get?]; rw [ih j]; simp [Nat.succ_lt_succ_iff]

/-- Helper for C8/C10: a successful `transformFull` visited node 0 first, kept its seeded depth 0, produced a block list of the input length, and left unvisited nodes at the default block. -/
theorem transformFull_ok_props (cfg : Cfg Instruction JumpCondition)
    (metadata : Metadata) (visF : List Nat) (sF : List (Option Int))
    (bF : List (BasicBlock Statement Expr))
    (h : transformFull cfg metadata = Except.ok (visF, sF, bF)) :
    visF.head? = some 0 ∧
    sF.getD 0 none = some StackLayout.new ∧
    bF.length = cfg.blocks.length ∧
    (∀ i, i ∉ visF → bF.get? i =
      (List.replicate cfg.blocks.length (BasicBlock.default : BasicBlock Statement Expr)).get? i) := by
  rw [transformFull] at h
  by_cases hn : cfg.blocks.length = 0
  · rw [if_pos hn] at h; cases h
  · rw [if_neg hn] at h
    have hlen0 : 0 < cfg.blocks.length := Nat.pos_of_ne_zero hn
    have hseed : ((List.replicate cfg.blocks.length (none : Option Int)).set 0
        (some StackLayout.new)).getD 0 none = some StackLayout.new := by
      apply getD_set_self
      simpa using hlen0
    rw [walk] at h
    rw [if_neg (List.not_mem_nil 0)] at h
    cases hs : ((List.replicate cfg.blocks.length (none : Option Int)).set 0
        (some StackLayout.new)).getD 0 none with
    | none => rw [hs] at hseed; cases hseed
    | some s0 =>
      simp only [hs] at h
      cases hb : cfg.blocks.get? 0 with
      | none => simp only [hb] at h; cases h
      | some bb =>
        simp only [hb] at h
        cases hex : execInsts metadata bb.stmts s0 with
        | none => simp only [hex] at h; cases h
        | some body =>
          simp only [hex] at h
          cases hterm : execTerminator bb.terminator body.2 with
          | none => simp only [hterm] at h; cases h
          | some termRes =>
            simp only [hterm] at h
            cases hps : processSuccs termRes.2 (successors cfg.edges 0)
                ((List.replicate cfg.blocks.length (none : Option Int)).set 0
                  (some StackLayout.new)) with
            | error e => simp only [hps] at h; cases h
            | ok st2 =>
              simp only [hps] at h
              obtain ⟨⟨ext, hvis⟩, hlen, hmono, hunvis⟩ :=
                walk_ok_props metadata cfg.edges cfg.blocks _ _ _ _ _ _ _ _ _ h
              have hvmem : (0 : Nat) ∈ visF := by rw [hvis]; simp
              refine ⟨?_, ?_, ?_, ?_⟩
              · rw [hvis]; simp
              · apply hmono
                apply processSuccs_preserves _ _ _ _ hps
                rw [hs] at hseed
                rw [hs]
                exact hseed
              · rw [hlen, List.length_set, List.length_replicate]
              · intro i hi
                have hne : (0 : Nat) ≠ i := fun hh => hi (hh ▸ hvmem)
                rw [hunvis i hi, List.get?_set_ne _ _ hne]

end Decompiler

namespace Decompiler

/-- C1: during `transform`'s walk, for every processed block and every
successor of it: if the successor's entry depth is still unknown it is set to
the processed block's exit depth, and if it is already known and differs, the
transformation fails with a mismatch error naming that successor (the
successor loop `processSuccs` is exactly the loop `transform` runs after each
block).  Concretely, on the diamond graph whose two paths to node 3 leave
depths 2 and 1, `transform` aborts with the mismatch error naming node 3. -/
theorem transform_successor_depth_check :
    (∀ (e : Int) (succs : List Nat) (st st' : List (Option Int)),
       (∀ w ∈ succs, w < st.length) →
       processSuccs e succs st = Except.ok st' →
       ∀ w ∈ succs, st'.getD w none = some e ∧
         (∀ s, st.getD w none = some s → s = e)) ∧
    (∀ (e : Int) (succs : List Nat) (st : List (Option Int)),
       (∃ w ∈ succs, ∃ s, st.getD w none = some s ∧ s ≠ e) →
       ∃ w s, st.getD w none = some s ∧ s ≠ e ∧
         processSuccs e succs st = Except.error (TransformError.mismatch e w s)) ∧
    transform cfgDiamond mdEmpty = Except.error (TransformError.mismatch 2 3 1) :=
  ⟨fun e succs st st' hb h => processSuccs_ok_forall succs e st st' hb h,
   fun e succs st h => processSuccs_mismatch succs e st h,
   rfl⟩

/-- C1 witnessed at a successor whose recorded depth 1 differs from the exit
depth 2: the loop fails with the mismatch error naming node 3. -/
theorem transform_successor_depth_check_witness :
    ∃ w s, ([none, none, none, some 1] : List (Option Int)).getD w none = some s ∧
      s ≠ 2 ∧ processSuccs 2 [3] [none, none, none, some 1] =
        Except.error (TransformError.mismatch 2 w s) :=
  transform_successor_depth_check.2.1 2 [3] [none, none, none, some 1]
    ⟨3, by decide, 1, by decide, by decide⟩

/-- C7: the operand-stack depth counter is never negative: `pop` returns the
decremented counter only when it is still non-negative and fails (the failed
assertion) otherwise, and executing any well-formed instruction sequence from
a non-negative depth succeeds with the counter non-negative after every
instruction. -/
theorem stack_depth_never_negative :
    (∀ s v : Int, StackLayout.pop s = some v → v = s - 1 ∧ 0 ≤ v) ∧
    (∀ s : Int, s - 1 < 0 → StackLayout.pop s = none) ∧
    (∀ (metadata : Metadata) (insts : List Instruction) (d : Int),
      0 ≤ d → wfFrom metadata d insts = true →
      ∃ tr, depthTrace metadata insts d = some tr ∧ ∀ x ∈ tr, 0 ≤ x) := by
  refine ⟨?_, ?_, ?_⟩
  · intro s v h
    rw [StackLayout.pop] at h
    by_cases hc : (0 : Int) ≤ s - 1
    · rw [if_pos hc] at h
      injection h with h'
      exact ⟨h'.symm, h' ▸ hc⟩
    · rw [if_neg hc] at h; cases h
  · intro s h
    rw [StackLayout.pop, if_neg (by omega)]
  · intro metadata
    exact wf_depthTrace_nonneg metadata

/-- C7 witnessed on push 5, push 7, subtract, return from depth 0. -/
theorem stack_depth_never_negative_witness :
    ∃ tr, depthTrace mdEmpty demoInsts 0 = some tr ∧ ∀ x ∈ tr, 0 ≤ x :=
  stack_depth_never_negative.2.2 mdEmpty demoInsts 0 (by decide) (by decide)

/-- C8 counterexample: the claim says the walk starts at the method's entry
block (seeded with depth 0) even when `entry_point` is not node index 0.  On
`cfgEntryOne`, whose entry point is node 1, the walk visits exactly node 0 and
the entry block's entry depth is never set: the walk starts at node index 0,
not at the entry block. -/
theorem transform_ignores_entry_point :
    (transformFull cfgEntryOne mdEmpty).map (fun r => r.1) = Except.ok [0] ∧
    (transformFull cfgEntryOne mdEmpty).map (fun r => r.2.1.getD 1 none) =
      Except.ok none ∧
    cfgEntryOne.entry_point = 1 := ⟨rfl, rfl, rfl⟩

/-- C8 amended: `transform`'s walk starts at graph node index 0 and node 0's
entry depth is seeded to 0 before the walk begins; this is the entry block
exactly when `entry_point` is node index 0 (which the surrounding pipeline
arranges). -/
theorem transform_walk_starts_at_node_zero (cfg : Cfg Instruction JumpCondition)
    (metadata : Metadata) (visF : List Nat) (sF : List (Option Int))
    (bF : List (BasicBlock Statement Expr))
    (h : transformFull cfg metadata = Except.ok (visF, sF, bF)) :
    visF.head? = some 0 ∧ sF.getD 0 none = some StackLayout.new ∧
    (cfg.entry_point = 0 → visF.head? = some cfg.entry_point) := by
  obtain ⟨h1, h2, _, _⟩ := transformFull_ok_props cfg metadata visF sF bF h
  exact ⟨h1, h2, fun he => by rw [he]; exact h1⟩

/-- C8 amended, witnessed on the single-block graph. -/
theorem transform_walk_starts_at_node_zero_witness :
    ([0] : List Nat).head? = some 0 ∧
    ([some StackLayout.new] : List (Option Int)).getD 0 none =
      some StackLayout.new ∧
    (cfgOneBlock.entry_point = 0 →
      ([0] : List Nat).head? = some cfgOneBlock.entry_point) :=
  transform_walk_starts_at_node_zero cfgOneBlock mdEmpty [0]
    [some StackLayout.new] [BasicBlock.default] rfl

/-- C10: a successful `transform` returns a graph with the same node count,
the same edges with unchanged weights, and the same `entry_point` and
`exit_point` as the input; blocks of nodes the walk never visited come out as
empty default blocks. -/
theorem transform_preserves_graph_shape (cfg : Cfg Instruction JumpCondition)
    (metadata : Metadata) (g' : Cfg Statement Expr) (visF : List Nat)
    (sF : List (Option Int)) (bF : List (BasicBlock Statement Expr))
    (h : transform cfg metadata = Except.ok g')
    (hfull : transformFull cfg metadata = Except.ok (visF, sF, bF)) :
    g'.blocks.length = cfg.blocks.length ∧
    g'.edges = cfg.edges ∧
    g'.entry_point = cfg.entry_point ∧
    g'.exit_point = cfg.exit_point ∧
    (∀ i, i ∉ visF → g'.blocks.getD i BasicBlock.default = BasicBlock.default) := by
  rw [transform, hfull] at h
  injection h with h'
  obtain ⟨_, _, hlen, hunvis⟩ := transformFull_ok_props cfg metadata visF sF bF hfull
  subst h'
  refine ⟨hlen, rfl, rfl, rfl, ?_⟩
  intro i hi
  rw [bb_getD_get?, hunvis i hi, replicate_get?]
  by_cases hlt : i < cfg.blocks.length
  · rw [if_pos hlt]; rfl
  · rw [if_neg hlt]; rfl

/-- C10 witnessed on the single-block graph. -/
theorem transform_preserves_graph_shape_witness :
    transformedOneBlock.blocks.length = cfgOneBlock.blocks.length ∧
    transformedOneBlock.edges = cfgOneBlock.edges ∧
    transformedOneBlock.entry_point = cfgOneBlock.entry_point ∧
    transformedOneBlock.exit_point = cfgOneBlock.exit_point ∧
    (∀ i, i ∉ ([0] : List Nat) →
      transformedOneBlock.blocks.getD i BasicBlock.default = BasicBlock.default) :=
  transform_preserves_graph_shape cfgOneBlock mdEmpty transformedOneBlock [0]
    [some StackLayout.new] [BasicBlock.default] rfl rfl

end Decompiler
